import Mathlib

/-!
Verification development for `scripts/generate_dataset.py`
(`EcommerceDataGenerator`).

The generator is embedded shallowly:

* Money and ratings are exact rationals (`ℚ`); Python `round(x, 2)` is
  modelled by `round2` (round half to even on the scaled value, which is
  what `round` does on exact decimal values).
* Every call to the `random` module is modelled by an explicit "random
  tape" parameter: `random.randint(a, b)` becomes `a + r % (b - a + 1)`
  for a tape value `r : ℕ`, `random.choice(xs)` becomes
  `xs.getD (r % xs.length) _` (raising `IndexError`, modelled as `none`,
  when `xs` is empty), `random.choices(xs, weights)[0]` becomes
  `xs.getD (r % xs.length) _`, `random.uniform(a, b)` becomes
  `a + (b - a) * frac` for a tape rational `frac`, and `random.sample`
  becomes `pySample` below (raising `ValueError`, modelled as `none`,
  when the requested size exceeds the population).
* Dates are integers counting days; `datetime + timedelta(days = d)`
  is integer addition.
-/

/-- Round half to even to an integer, the behaviour of Python `round`
on exact decimal values. -/
def pyRound (x : ℚ) : ℤ :=
  let f := ⌊x⌋
  let frac := x - f
  if frac < 1/2 then f
  else if 1/2 < frac then f + 1
  else if 2 ∣ f then f else f + 1

/-- The model of Python `round(x, 2)`: round to two decimal places. -/
def round2 (x : ℚ) : ℚ := (pyRound (100 * x) : ℚ) / 100

/-- A rational is an exact multiple of one cent. -/
def isCentValue (x : ℚ) : Prop := (100 * x).den = 1

instance (x : ℚ) : Decidable (isCentValue x) := by
  unfold isCentValue; infer_instance

/-- One sampling step of Python `random.sample`: draw the element at a
tape-selected position and remove it from the population, `k` times. -/
def sampleGo {α : Type} [DecidableEq α] : List α → ℕ → (ℕ → ℕ) → List α
  | _, 0, _ => []
  | [], _ + 1, _ => []
  | p :: ps, k + 1, rs =>
    let pop := p :: ps
    let x := pop.getD (rs 0 % pop.length) p
    x :: sampleGo (pop.erase x) k (fun n => rs (n + 1))

/-- The model of Python `random.sample(pop, k)`: `none` models the
`ValueError` raised when `k` exceeds the population size. -/
def pySample {α : Type} [DecidableEq α] (pop : List α) (k : ℕ) (rs : ℕ → ℕ) :
    Option (List α) :=
  if pop.length < k then none else some (sampleGo pop k rs)

/-! ## Data model

The structures keep the fields the verified claims mention; the remaining
fields of the Python dicts (names, descriptions, addresses, dimensions,
tags, and so on) are independent random draws never read back by the
generator and are omitted. -/

/-- A category record from `generate_categories` (claim-relevant fields). -/
structure Category where
  category_id : String
  name : String
  is_active : Bool
  deriving DecidableEq, Repr

/-- A product record from `generate_products` (claim-relevant fields).
The stock is an integer so that a negative stock would be representable. -/
structure Product where
  product_id : String
  base_price : ℚ
  current_stock : ℤ
  is_active : Bool
  rating : ℚ
  deriving DecidableEq, Repr

/-- A user record from `generate_users` (claim-relevant fields). -/
structure User where
  user_id : String
  account_status : String
  total_orders : ℕ
  lifetime_value : ℚ
  deriving DecidableEq, Repr

/-- One line item of a transaction. -/
structure TxnItem where
  product_id : String
  quantity : ℕ
  unit_price : ℚ
  subtotal : ℚ
  deriving DecidableEq, Repr

/-- A transaction record from `_generate_simple_transactions`. -/
structure Transaction where
  transaction_id : String
  user_id : String
  timestamp : String
  items : List TxnItem
  subtotal : ℚ
  discount : ℚ
  tax : ℚ
  shipping : ℚ
  total : ℚ
  payment_method : String
  status : String
  deriving DecidableEq, Repr

/-- A session record from `_generate_simple_sessions` (claim-relevant
fields; the viewed-products draw is modelled by `sessionProductsViewed`). -/
structure Session where
  session_id : String
  user_id : String
  deriving DecidableEq, Repr

def defaultProduct : Product := ⟨"", 0, 0, false, 0⟩

def defaultUser : User := ⟨"", "", 0, 0⟩

/-! ## User preferences (`generate_users`, lines 292-296)

`preferred_categories` is
`random.sample([c.category_id for c in categories if c.is_active], k = random.randint(1, 5))`.
`kRand` is the tape value behind `randint(1, 5)` and `rs` the tape behind
`sample`; a `none` result models the `ValueError` that `random.sample`
raises when the sample size exceeds the population. -/
def userPreferredCategories (categories : List Category) (kRand : ℕ)
    (rs : ℕ → ℕ) : Option (List String) :=
  let active := (categories.filter (fun c => c.is_active)).map
    (fun c => c.category_id)
  pySample active (1 + kRand % 5) rs

/-! ## Price history (`_generate_price_history`, lines 185-228) -/

/-- The random draws of one iteration of the price-change loop:
`daysRand` is the tape behind `randint(7, 45)`, `typePick` the tape behind
the weighted choice of the change type, and `frac` the unit-interval tape
behind `random.uniform`. -/
structure PriceChange where
  daysRand : ℕ
  typePick : ℕ
  frac : ℚ
  deriving DecidableEq, Repr

def changeTypes : List String :=
  ["promotion", "market_adjustment", "cost_increase", "clearance", "restock"]

/-- The change factor drawn for a change type: `uniform(a, b)` is modelled
as `a + (b - a) * frac`. -/
def changeFactor (typePick : ℕ) (frac : ℚ) : ℚ :=
  let ct := changeTypes.getD (typePick % 5) "promotion"
  if ct = "promotion" then 7/10 + (9/10 - 7/10) * frac
  else if ct = "clearance" then 1/2 + (8/10 - 1/2) * frac
  else if ct = "cost_increase" then 105/100 + (125/100 - 105/100) * frac
  else 9/10 + (11/10 - 9/10) * frac

/-- An entry of a product's `price_history`; the date counts days. -/
structure PriceEntry where
  price : ℚ
  date : ℤ
  reason : String
  deriving DecidableEq, Repr

/-- The price-change loop: each iteration moves the date forward by
`randint(7, 45)` days, multiplies the price by the drawn change factor,
rounds to 2 decimals, and appends an entry tagged with the change type. -/
def priceHistoryGo (price : ℚ) (date : ℤ) : List PriceChange → List PriceEntry
  | [] => []
  | c :: cs =>
    let d := date + (7 + (c.daysRand % 39 : ℕ) : ℕ)
    let p := round2 (price * changeFactor c.typePick c.frac)
    ⟨p, d, changeTypes.getD (c.typePick % 5) "promotion"⟩ :: priceHistoryGo p d cs

/-- The model of `_generate_price_history`: the initial listing entry
followed by the drawn price changes (the source draws `randint(0, 4)`
changes; here the tape `changes` carries one record per change). -/
def generatePriceHistory (basePrice : ℚ) (startDate : ℤ)
    (changes : List PriceChange) : List PriceEntry :=
  ⟨basePrice, startDate, "initial_listing"⟩ :: priceHistoryGo basePrice startDate changes

/-! ## Session viewed products (`_generate_simple_sessions`, lines 540-543)

`products_viewed` is
`random.sample([p.product_id for p in products[:100]], k = random.randint(0, 5))`. -/
def sessionProductsViewed (products : List Product) (kRand : ℕ)
    (rs : ℕ → ℕ) : Option (List String) :=
  pySample ((products.take 100).map (fun p => p.product_id)) (kRand % 6) rs

/-! ## Transaction generation (`_generate_simple_transactions`, lines 438-515) -/

/-- The in-memory generator state mutated by transaction generation. -/
structure GenState where
  products : List Product
  users : List User
  transactions : List Transaction
  deriving DecidableEq, Repr

/-- The random draws (and uuid4 entropy / Faker output, neither of which
comes from the seeded `random` stream) consumed by one iteration of the
transaction loop. -/
structure Attempt where
  userPick : ℕ
  numItemsPick : ℕ
  samplePicks : ℕ → ℕ
  quantPicks : List ℕ
  discountHappens : Bool
  ratePick : ℕ
  uuidHex : String
  timestamp : String
  payPick : ℕ
  statusPick : ℕ

/-- Indices of the users passing the filter
`[u for u in self.users if u["account_status"] == "active"]`;
object identity in the Python lists is position in the Lean lists. -/
def activeUserIdx (users : List User) : List ℕ :=
  (List.range users.length).filter
    (fun j => (users.getD j defaultUser).account_status = "active")

/-- Indices of the products passing the filter
`[p for p in self.products if p["is_active"] and p["current_stock"] > 0]`. -/
def availableIdx (products : List Product) : List ℕ :=
  (List.range products.length).filter
    (fun i => (products.getD i defaultProduct).is_active
      && decide (0 < (products.getD i defaultProduct).current_stock))

/-- The drawn item count:
`random.choices([1, 2, 3, 4, 5], weights=[0.4, 0.3, 0.15, 0.1, 0.05])[0]`. -/
def numItemsDraw (r : ℕ) : ℕ := [1, 2, 3, 4, 5].getD (r % 5) 1

def discountRates : List ℚ := [5/100, 10/100, 15/100, 20/100]

def paymentMethods : List String :=
  ["credit_card", "debit_card", "paypal", "apple_pay",
   "google_pay", "bank_transfer", "gift_card"]

def txnStatuses : List String :=
  ["completed", "processing", "shipped", "delivered", "cancelled"]

/-- The transaction id `f"txn_{uuid.uuid4().hex[:12]}"`; its argument is
uuid4 entropy drawn from the operating system, not from the seeded
`random` stream. -/
def mkTransactionId (uuidHex : String) : String := "txn_" ++ uuidHex.take 12

/-- The per-item loop of the transaction simulator: for each selected
product index draw `quantity = randint(1, min(3, current_stock))`, record
the item, accumulate the unrounded subtotal, and decrement the selected
product's stock in place. Returns (items, subtotal, updated products). -/
def itemLoop : List Product → List ℕ → List ℕ → List TxnItem × ℚ × List Product
  | prods, [], _ => ([], 0, prods)
  | prods, i :: rest, qt =>
    let p := prods.getD i defaultProduct
    let m := min 3 p.current_stock.toNat
    let q := 1 + qt.headD 0 % m
    let item : TxnItem :=
      { product_id := p.product_id, quantity := q, unit_price := p.base_price
        subtotal := round2 ((q : ℚ) * p.base_price) }
    let prods1 := prods.set i { p with current_stock := p.current_stock - q }
    let r := itemLoop prods1 rest qt.tail
    (item :: r.1, (q : ℚ) * p.base_price + r.2.1, r.2.2)

/-- The discount of a transaction: a 25% chance (`discountHappens`) of a
rate from `discountRates`, applied to the unrounded running subtotal and
rounded to 2 decimals; otherwise 0. -/
def txnDiscount (a : Attempt) (sub : ℚ) : ℚ :=
  if a.discountHappens
    then round2 (sub * discountRates.getD (a.ratePick % 4) (5/100)) else 0

/-- The tax `round(subtotal * 0.08, 2)`. -/
def txnTax (sub : ℚ) : ℚ := round2 (sub * (8/100))

/-- The shipping fee `0 if subtotal > 50 else 9.99`. -/
def txnShipping (sub : ℚ) : ℚ := if 50 < sub then 0 else 999/100

/-- The total `round(subtotal - discount + tax + shipping, 2)`. -/
def txnTotal (a : Attempt) (sub : ℚ) : ℚ :=
  round2 (sub - txnDiscount a sub + txnTax sub + txnShipping sub)

/-- The transaction record assembled at lines 486-509. -/
def mkTxn (a : Attempt) (uid : String) (items : List TxnItem) (sub : ℚ) :
    Transaction :=
  { transaction_id := mkTransactionId a.uuidHex
    user_id := uid
    timestamp := a.timestamp
    items := items
    subtotal := round2 sub
    discount := txnDiscount a sub
    tax := txnTax sub
    shipping := txnShipping sub
    total := txnTotal a sub
    payment_method := paymentMethods.getD (a.payPick % 7) "credit_card"
    status := txnStatuses.getD (a.statusPick % 5) "completed" }

/-- Commit a transaction to the state: store the updated products, append
the transaction, and update the owning user's `total_orders` and
`lifetime_value` (lines 511-515), regardless of the transaction status. -/
def applyTxn (st : GenState) (uIdx : ℕ) (txn : Transaction)
    (prods1 : List Product) : GenState :=
  let user := st.users.getD uIdx defaultUser
  { products := prods1
    users := st.users.set uIdx
      { user with total_orders := user.total_orders + 1
                  lifetime_value := user.lifetime_value + txn.total }
    transactions := st.transactions ++ [txn] }

/-- One iteration of the transaction loop. `none` models the `IndexError`
raised by `random.choice` on an empty active-user list; an attempt that
finds fewer available products than the drawn item count is skipped,
returning the state unchanged (`continue` in the source). -/
def stepTransaction (st : GenState) (a : Attempt) : Option GenState :=
  let activeU := activeUserIdx st.users
  if activeU.length = 0 then none
  else
    let uIdx := activeU.getD (a.userPick % activeU.length) 0
    let user := st.users.getD uIdx defaultUser
    let numItems := numItemsDraw a.numItemsPick
    let avail := availableIdx st.products
    if avail.length < numItems then some st
    else
      let selected := sampleGo avail numItems a.samplePicks
      let r := itemLoop st.products selected a.quantPicks
      some (applyTxn st uIdx (mkTxn a user.user_id r.1 r.2.1) r.2.2)

/-- The transaction loop: one `Attempt` per configured transaction
(`range(self.config['NUM_TRANSACTIONS'])`). -/
def generateSimpleTransactions : GenState → List Attempt → Option GenState
  | st, [] => some st
  | st, a :: rest =>
    match stepTransaction st a with
    | none => none
    | some st1 => generateSimpleTransactions st1 rest

/-! ## Summary statistics (`_generate_summary`, lines 357-400) -/

/-- The guarded average
`total_revenue / len(self.transactions) if self.transactions else 0`. -/
def averageTransactionValue (txns : List Transaction) : ℚ :=
  if txns.isEmpty then 0
  else ((txns.map (fun t => t.total)).sum) / (txns.length : ℚ)

/-- The guarded ratio
`len(self.transactions) / len(self.sessions) if self.sessions else 0`. -/
def conversionRate (txns : List Transaction) (sessions : List Session) : ℚ :=
  if sessions.isEmpty then 0
  else (txns.length : ℚ) / (sessions.length : ℚ)

/-- The `conversion_rate` value persisted in `dataset_summary.json`:
`round(conversion_rate * 100, 2)` (line 380). -/
def persistedConversionRate (txns : List Transaction)
    (sessions : List Session) : ℚ :=
  round2 (conversionRate txns sessions * 100)

/-- The `business_metrics` object of `dataset_summary.json`
(claim-relevant fields). -/
structure BusinessMetrics where
  total_revenue : ℚ
  average_transaction_value : ℚ
  conversion_rate : ℚ
  average_product_rating : ℚ
  deriving DecidableEq, Repr

/-- The business-metrics computation. The expression
`sum(p["rating"] for p in self.products) / len(self.products)` has no
emptiness guard in the source; the `none` branch models the
`ZeroDivisionError` it raises when no products exist. -/
def businessMetrics (products : List Product) (txns : List Transaction)
    (sessions : List Session) : Option BusinessMetrics :=
  if products.isEmpty then none
  else some
    { total_revenue := round2 ((txns.map (fun t => t.total)).sum)
      average_transaction_value := round2 (averageTransactionValue txns)
      conversion_rate := persistedConversionRate txns sessions
      average_product_rating :=
        round2 ((products.map (fun p => p.rating)).sum / (products.length : ℚ)) }

/-! ## Non-seeded run inputs (claim C6)

The constructor seeds `numpy`, `random` and `Faker` (lines 48-51), but two
output ingredients never come from those seeded streams: uuid4 entropy
(`uuid.uuid4()` reads the operating-system entropy pool; used for
`transaction_id` and `session_id`) and the wall clock
(`datetime.datetime.now()`; used for the summary timestamp at line 365,
for `product_creation_start`, and as the implicit reference point of every
Faker `date_time_between(... end_date="now")` call). -/

/-- The inputs of a run that are not controlled by the fixed seeds. -/
structure NonSeededInputs where
  uuidHex : String
  nowIso : String
  deriving DecidableEq, Repr

/-- The first transaction id written to `transactions.json` and the
`generation_metadata.timestamp` string written to `dataset_summary.json`,
as functions of the run inputs: both depend only on the non-seeded
inputs, whatever seed is configured. -/
def runSensitiveBytes (seed : ℕ) (inp : NonSeededInputs) : String × String :=
  (mkTransactionId inp.uuidHex, inp.nowIso)

/-! ## Concrete exemplars used to instantiate the theorems -/

def exProduct : Product :=
  { product_id := "prod_00000", base_price := 10, current_stock := 5
    is_active := true, rating := 3 }

def exUser : User :=
  { user_id := "user_000000", account_status := "active"
    total_orders := 0, lifetime_value := 0 }

def exState : GenState :=
  { products := [exProduct], users := [exUser], transactions := [] }

/-- One concrete transaction attempt; `statusPick = 4` draws the status
`"cancelled"`. -/
def exAttempt : Attempt :=
  { userPick := 0, numItemsPick := 0, samplePicks := fun _ => 0
    quantPicks := [0], discountHappens := false, ratePick := 0
    uuidHex := "a0b1c2d3e4f5a6b7", timestamp := "2025-01-01T00:00:00"
    payPick := 0, statusPick := 4 }

/-- The transaction `stepTransaction exState exAttempt` produces. -/
def exTxn : Transaction :=
  { transaction_id := "txn_a0b1c2d3e4f5", user_id := "user_000000"
    timestamp := "2025-01-01T00:00:00"
    items := [⟨"prod_00000", 1, 10, 10⟩]
    subtotal := 10, discount := 0, tax := 4/5, shipping := 999/100
    total := 2079/100, payment_method := "credit_card", status := "cancelled" }

/-- The generator state after `stepTransaction exState exAttempt`. -/
def exState1 : GenState :=
  { products := [{ exProduct with current_stock := 4 }]
    users := [{ exUser with total_orders := 1, lifetime_value := 2079/100 }]
    transactions := [exTxn] }

/-! ## Helper lemmas -/

theorem pyRound_intCast (n : ℤ) : pyRound (n : ℚ) = n := by
  unfold pyRound
  simp only [Int.floor_intCast]
  norm_num

theorem round2_eq_self {x : ℚ} (h : isCentValue x) : round2 x = x := by
  unfold round2
  have h1 : ((100 * x).num : ℚ) = 100 * x := (Rat.den_eq_one_iff _).mp h
  rw [← h1, pyRound_intCast, h1]
  ring

theorem isCentValue_add {x y : ℚ} (hx : isCentValue x) (hy : isCentValue y) :
    isCentValue (x + y) := by
  unfold isCentValue at *
  have hx' : ((100 * x).num : ℚ) = 100 * x := (Rat.den_eq_one_iff _).mp hx
  have hy' : ((100 * y).num : ℚ) = 100 * y := (Rat.den_eq_one_iff _).mp hy
  have : 100 * (x + y) = (((100 * x).num + (100 * y).num : ℤ) : ℚ) := by
    push_cast
    rw [hx', hy']; ring
  rw [this, Rat.den_intCast]

theorem isCentValue_natMul {x : ℚ} (n : ℕ) (hx : isCentValue x) :
    isCentValue ((n : ℚ) * x) := by
  induction n with
  | zero =>
    simp only [Nat.cast_zero, zero_mul]
    unfold isCentValue
    norm_num
  | succ k ih =>
    have : ((k + 1 : ℕ) : ℚ) * x = (k : ℚ) * x + x := by push_cast; ring
    rw [this]
    exact isCentValue_add ih hx

theorem isCentValue_zero : isCentValue 0 := by
  unfold isCentValue; norm_num

theorem sampleGo_head_mem {α : Type} [DecidableEq α] (p : α) (ps : List α)
    (r : ℕ) : (p :: ps).getD (r % (p :: ps).length) p ∈ (p :: ps) := by
  have hlt : r % (p :: ps).length < (p :: ps).length :=
    Nat.mod_lt _ (by simp)
  rw [List.getD_eq_getElem _ _ hlt]
  exact List.getElem_mem hlt

theorem sampleGo_subset {α : Type} [DecidableEq α] :
    ∀ (k : ℕ) (pop : List α) (rs : ℕ → ℕ), ∀ x ∈ sampleGo pop k rs, x ∈ pop := by
  intro k
  induction k with
  | zero => intro pop rs x hx; simp [sampleGo] at hx
  | succ n ih =>
    intro pop rs x hx
    match pop with
    | [] => simp [sampleGo] at hx
    | p :: ps =>
      simp only [sampleGo] at hx
      rcases List.mem_cons.mp hx with h | h
      · rw [h]; exact sampleGo_head_mem p ps (rs 0)
      · exact (List.erase_sublist _ _).mem (ih _ _ _ h)

theorem sampleGo_length {α : Type} [DecidableEq α] :
    ∀ (k : ℕ) (pop : List α) (rs : ℕ → ℕ), k ≤ pop.length →
      (sampleGo pop k rs).length = k := by
  intro k
  induction k with
  | zero => intro pop rs _; simp [sampleGo]
  | succ n ih =>
    intro pop rs hk
    match pop with
    | [] => simp at hk
    | p :: ps =>
      simp only [sampleGo, List.length_cons]
      have hmem := sampleGo_head_mem p ps (rs 0)
      have herase := List.length_erase_of_mem hmem
      have hle : n ≤ ((p :: ps).erase ((p :: ps).getD (rs 0 % (p :: ps).length) p)).length := by
        rw [herase]
        simp only [List.length_cons] at hk ⊢
        omega
      have key := ih _ (fun n => rs (n + 1)) hle
      simp only [List.length_cons] at key
      rw [key]

theorem sampleGo_nodup {α : Type} [DecidableEq α] :
    ∀ (k : ℕ) (pop : List α) (rs : ℕ → ℕ), pop.Nodup →
      (sampleGo pop k rs).Nodup := by
  intro k
  induction k with
  | zero => intro pop rs _; simp [sampleGo]
  | succ n ih =>
    intro pop rs hnd
    match pop with
    | [] => simp [sampleGo]
    | p :: ps =>
      simp only [sampleGo]
      refine List.nodup_cons.mpr ⟨?_, ?_⟩
      · intro hmem
        have hsub := sampleGo_subset n _ _ _ hmem
        exact (hnd.not_mem_erase) hsub
      · exact ih _ _ ((List.erase_sublist _ _).nodup hnd)

theorem pySample_eq_none_iff {α : Type} [DecidableEq α] (pop : List α)
    (k : ℕ) (rs : ℕ → ℕ) : pySample pop k rs = none ↔ pop.length < k := by
  unfold pySample
  split <;> simp_all

theorem pySample_spec {α : Type} [DecidableEq α] {pop : List α} {k : ℕ}
    {rs : ℕ → ℕ} {l : List α} (h : pySample pop k rs = some l) :
    l.length = k ∧ (∀ x ∈ l, x ∈ pop) ∧ (pop.Nodup → l.Nodup) := by
  unfold pySample at h
  split at h
  · exact absurd h (by simp)
  · rename_i hle
    obtain rfl : sampleGo pop k rs = l := by injection h
    exact ⟨sampleGo_length k pop rs (by omega),
      sampleGo_subset k pop rs, sampleGo_nodup k pop rs⟩

theorem ex_step_eval : stepTransaction exState exAttempt = some exState1 := by
  simp only [stepTransaction, exState, exAttempt, exState1, exProduct, exUser,
    exTxn, activeUserIdx, availableIdx, numItemsDraw, itemLoop, sampleGo,
    mkTransactionId, txnStatuses, paymentMethods, discountRates, applyTxn,
    mkTxn, txnDiscount, txnTax, txnShipping, txnTotal,
    List.range_succ, List.range_zero]
  norm_num [List.filter, List.getD, round2, pyRound, defaultUser, defaultProduct]
  decide

theorem stepTransaction_eq_none_iff (st : GenState) (a : Attempt) :
    stepTransaction st a = none ↔ activeUserIdx st.users = [] := by
  unfold stepTransaction
  rcases h : activeUserIdx st.users with _ | ⟨j, js⟩
  · simp
  · rw [if_neg (by simp)]
    simp only [List.cons_ne_nil, iff_false]
    split <;> simp

theorem stepTransaction_skip {st : GenState} {a : Attempt}
    (h1 : activeUserIdx st.users ≠ [])
    (h2 : (availableIdx st.products).length < numItemsDraw a.numItemsPick) :
    stepTransaction st a = some st := by
  unfold stepTransaction
  rw [if_neg (by simpa using h1), if_pos h2]

theorem stepTransaction_append {st : GenState} {a : Attempt}
    (h1 : activeUserIdx st.users ≠ [])
    (h2 : ¬ (availableIdx st.products).length < numItemsDraw a.numItemsPick) :
    stepTransaction st a = some (applyTxn st
      ((activeUserIdx st.users).getD (a.userPick % (activeUserIdx st.users).length) 0)
      (mkTxn a
        (st.users.getD
          ((activeUserIdx st.users).getD (a.userPick % (activeUserIdx st.users).length) 0)
          defaultUser).user_id
        (itemLoop st.products
          (sampleGo (availableIdx st.products) (numItemsDraw a.numItemsPick) a.samplePicks)
          a.quantPicks).1
        (itemLoop st.products
          (sampleGo (availableIdx st.products) (numItemsDraw a.numItemsPick) a.samplePicks)
          a.quantPicks).2.1)
      (itemLoop st.products
        (sampleGo (availableIdx st.products) (numItemsDraw a.numItemsPick) a.samplePicks)
        a.quantPicks).2.2) := by
  unfold stepTransaction
  rw [if_neg (by simpa using h1), if_neg h2]

theorem stepTransaction_some_cases {st st1 : GenState} {a : Attempt}
    (h : stepTransaction st a = some st1) :
    activeUserIdx st.users ≠ []
    ∧ ((st1 = st
          ∧ (availableIdx st.products).length < numItemsDraw a.numItemsPick)
      ∨ (¬ (availableIdx st.products).length < numItemsDraw a.numItemsPick
          ∧ st1 = applyTxn st
            ((activeUserIdx st.users).getD (a.userPick % (activeUserIdx st.users).length) 0)
            (mkTxn a
              (st.users.getD
                ((activeUserIdx st.users).getD (a.userPick % (activeUserIdx st.users).length) 0)
                defaultUser).user_id
              (itemLoop st.products
                (sampleGo (availableIdx st.products) (numItemsDraw a.numItemsPick) a.samplePicks)
                a.quantPicks).1
              (itemLoop st.products
                (sampleGo (availableIdx st.products) (numItemsDraw a.numItemsPick) a.samplePicks)
                a.quantPicks).2.1)
            (itemLoop st.products
              (sampleGo (availableIdx st.products) (numItemsDraw a.numItemsPick) a.samplePicks)
              a.quantPicks).2.2)) := by
  have h1 : activeUserIdx st.users ≠ [] := by
    intro hnil
    rw [(stepTransaction_eq_none_iff st a).mpr hnil] at h
    exact absurd h (by simp)
  refine ⟨h1, ?_⟩
  by_cases h2 : (availableIdx st.products).length < numItemsDraw a.numItemsPick
  · left
    rw [stepTransaction_skip h1 h2] at h
    exact ⟨by injection h with h; exact h.symm, h2⟩
  · right
    rw [stepTransaction_append h1 h2] at h
    exact ⟨h2, by injection h with h; exact h.symm⟩

theorem getD_set_ne {α : Type} (l : List α) (d x : α) {i j : ℕ} (h : i ≠ j) :
    (l.set i x).getD j d = l.getD j d := by
  by_cases hj : j < l.length
  · rw [List.getD_eq_getElem _ _ (by rw [List.length_set]; exact hj),
      List.getD_eq_getElem _ _ hj]
    exact List.getElem_set_ne h _
  · rw [List.getD_eq_default _ _ (by rw [List.length_set]; omega),
      List.getD_eq_default _ _ (by omega)]

theorem getD_set_self {α : Type} (l : List α) (d x : α) {i : ℕ}
    (h : i < l.length) : (l.set i x).getD i d = x := by
  rw [List.getD_eq_getElem _ _ (by rw [List.length_set]; exact h)]
  exact List.getElem_set_self _

theorem forall₂_imp_of_mem {α β : Type} {R S : α → β → Prop} :
    ∀ {l1 : List α} {l2 : List β}, (∀ a ∈ l1, ∀ b, R a b → S a b) →
      List.Forall₂ R l1 l2 → List.Forall₂ S l1 l2 := by
  intro l1
  induction l1 with
  | nil =>
    intro l2 _ h
    cases h
    exact List.Forall₂.nil
  | cons a l ih =>
    intro l2 himp h
    cases h with
    | cons hab htail =>
      exact List.Forall₂.cons (himp a (by simp) _ hab)
        (ih (fun x hx b hr => himp x (by simp [hx]) b hr) htail)

theorem forall₂_exists_of_mem_left {α β : Type} {R : α → β → Prop} :
    ∀ {l1 : List α} {l2 : List β}, List.Forall₂ R l1 l2 →
      ∀ a ∈ l1, ∃ b ∈ l2, R a b := by
  intro l1
  induction l1 with
  | nil => intro l2 _ a ha; simp at ha
  | cons x l ih =>
    intro l2 h a ha
    cases h with
    | cons hab htail =>
      rcases List.mem_cons.mp ha with rfl | ha
      · exact ⟨_, by simp, hab⟩
      · obtain ⟨b, hb, hr⟩ := ih htail a ha
        exact ⟨b, by simp [hb], hr⟩

theorem forall₂_exists_of_mem_right {α β : Type} {R : α → β → Prop} :
    ∀ {l1 : List α} {l2 : List β}, List.Forall₂ R l1 l2 →
      ∀ b ∈ l2, ∃ a ∈ l1, R a b := by
  intro l1
  induction l1 with
  | nil =>
    intro l2 h b hb
    cases h
    simp at hb
  | cons x l ih =>
    intro l2 h b hb
    cases h with
    | cons hab htail =>
      rcases List.mem_cons.mp hb with rfl | hb
      · exact ⟨x, by simp, hab⟩
      · obtain ⟨a, ha, hr⟩ := ih htail b hb
        exact ⟨a, by simp [ha], hr⟩

theorem availableIdx_nodup (products : List Product) :
    (availableIdx products).Nodup :=
  (List.nodup_range _).filter _

theorem availableIdx_mem {products : List Product} {i : ℕ}
    (h : i ∈ availableIdx products) :
    i < products.length
    ∧ (products.getD i defaultProduct).is_active = true
    ∧ 0 < (products.getD i defaultProduct).current_stock := by
  unfold availableIdx at h
  have h2 := List.mem_filter.mp h
  have h3 := h2.2
  simp only [Bool.and_eq_true, decide_eq_true_eq] at h3
  exact ⟨List.mem_range.mp h2.1, h3.1, h3.2⟩

theorem activeUserIdx_mem {users : List User} {j : ℕ}
    (h : j ∈ activeUserIdx users) :
    j < users.length ∧ (users.getD j defaultUser).account_status = "active" := by
  unfold activeUserIdx at h
  have h2 := List.mem_filter.mp h
  have h3 := h2.2
  simp only [decide_eq_true_eq] at h3
  exact ⟨List.mem_range.mp h2.1, h3⟩

theorem activeUserIdx_getD_mem {users : List User}
    (h : activeUserIdx users ≠ []) (r : ℕ) :
    (activeUserIdx users).getD (r % (activeUserIdx users).length) 0
      ∈ activeUserIdx users := by
  have hlen : 0 < (activeUserIdx users).length := List.length_pos.mpr h
  have hlt : r % (activeUserIdx users).length < (activeUserIdx users).length :=
    Nat.mod_lt _ hlen
  rw [List.getD_eq_getElem _ _ hlt]
  exact List.getElem_mem hlt

theorem itemLoop_spec :
    ∀ (sel : List ℕ) (prods : List Product) (qt : List ℕ),
      sel.Nodup →
      (∀ i ∈ sel, i < prods.length
        ∧ 0 < (prods.getD i defaultProduct).current_stock) →
      (itemLoop prods sel qt).2.2.length = prods.length
      ∧ (∀ j, j ∉ sel →
          (itemLoop prods sel qt).2.2.getD j defaultProduct
            = prods.getD j defaultProduct)
      ∧ List.Forall₂ (fun i it =>
          it.product_id = (prods.getD i defaultProduct).product_id
          ∧ it.unit_price = (prods.getD i defaultProduct).base_price
          ∧ 1 ≤ it.quantity
          ∧ (it.quantity : ℤ) ≤ min 3 (prods.getD i defaultProduct).current_stock
          ∧ it.subtotal = round2 ((it.quantity : ℚ) * it.unit_price)
          ∧ ((itemLoop prods sel qt).2.2.getD i defaultProduct).current_stock
              = (prods.getD i defaultProduct).current_stock - it.quantity)
          sel (itemLoop prods sel qt).1
      ∧ (itemLoop prods sel qt).2.1
          = ((itemLoop prods sel qt).1.map
              (fun it => (it.quantity : ℚ) * it.unit_price)).sum := by
  intro sel
  induction sel with
  | nil =>
    intro prods qt _ _
    refine ⟨rfl, fun j _ => rfl, List.Forall₂.nil, by simp [itemLoop]⟩
  | cons i rest ih =>
    intro prods qt hnd hmem
    have hi := hmem i (by simp)
    have hstock : 0 < (prods.getD i defaultProduct).current_stock := hi.2
    have hilen : i < prods.length := hi.1
    have hinotin : i ∉ rest := (List.nodup_cons.mp hnd).1
    have hndrest : rest.Nodup := (List.nodup_cons.mp hnd).2
    -- the state after processing the head item
    set p := prods.getD i defaultProduct with hp
    set m := min 3 p.current_stock.toNat with hm
    set q := 1 + qt.headD 0 % m with hq
    set prods1 := prods.set i { p with current_stock := p.current_stock - q }
      with hprods1
    have hrw : itemLoop prods (i :: rest) qt
        = (⟨p.product_id, q, p.base_price, round2 ((q : ℚ) * p.base_price)⟩
            :: (itemLoop prods1 rest qt.tail).1,
           (q : ℚ) * p.base_price + (itemLoop prods1 rest qt.tail).2.1,
           (itemLoop prods1 rest qt.tail).2.2) := rfl
    have hmem1 : ∀ j ∈ rest, j < prods1.length
        ∧ 0 < (prods1.getD j defaultProduct).current_stock := by
      intro j hj
      have hne : i ≠ j := fun h => hinotin (h ▸ hj)
      have hgd : prods1.getD j defaultProduct = prods.getD j defaultProduct :=
        getD_set_ne _ _ _ hne
      have := hmem j (by simp [hj])
      exact ⟨by rw [hprods1, List.length_set]; exact this.1, by rw [hgd]; exact this.2⟩
    obtain ⟨ihlen, ihuntouched, ihrel, ihsub⟩ := ih prods1 qt.tail hndrest hmem1
    have hq1 : 1 ≤ q := by omega
    have hmpos : 0 < m := by
      rw [hm]
      have : 0 < p.current_stock.toNat := by omega
      omega
    have hqm : q ≤ m := by
      have := Nat.mod_lt (qt.headD 0) hmpos
      omega
    have hcast : (m : ℤ) = min 3 p.current_stock := by
      rw [hm, Nat.cast_min, Int.toNat_of_nonneg hstock.le]
      norm_num
    have hfinali : (itemLoop prods1 rest qt.tail).2.2.getD i defaultProduct
        = { p with current_stock := p.current_stock - q } := by
      rw [ihuntouched i hinotin, hprods1]
      exact getD_set_self _ _ _ hilen
    refine ⟨?_, ?_, ?_, ?_⟩
    · rw [hrw]
      show (itemLoop prods1 rest qt.tail).2.2.length = prods.length
      rw [ihlen, hprods1, List.length_set]
    · intro j hj
      rw [hrw]
      show (itemLoop prods1 rest qt.tail).2.2.getD j defaultProduct
        = prods.getD j defaultProduct
      have hjne : i ≠ j := fun h => hj (h ▸ List.mem_cons_self i rest)
      have hjrest : j ∉ rest := fun h => hj (List.mem_cons_of_mem _ h)
      rw [ihuntouched j hjrest, hprods1]
      exact getD_set_ne _ _ _ hjne
    · rw [hrw]
      refine List.Forall₂.cons ⟨rfl, rfl, hq1, ?_, rfl, ?_⟩ ?_
      · show (q : ℤ) ≤ min 3 p.current_stock
        rw [← hcast]
        exact_mod_cast hqm
      · show ((itemLoop prods1 rest qt.tail).2.2.getD i defaultProduct).current_stock
          = p.current_stock - (q : ℤ)
        rw [hfinali]
      · refine forall₂_imp_of_mem ?_ ihrel
        intro j hj it hr
        have hne : i ≠ j := fun h => hinotin (h ▸ hj)
        have hgd : prods1.getD j defaultProduct = prods.getD j defaultProduct :=
          getD_set_ne _ _ _ hne
        rw [hgd] at hr
        exact hr
    · rw [hrw]
      show (q : ℚ) * p.base_price + (itemLoop prods1 rest qt.tail).2.1 = _
      rw [ihsub]
      simp

theorem stepTransaction_stock_nonneg {st st1 : GenState} {a : Attempt}
    (hstep : stepTransaction st a = some st1)
    (h0 : ∀ p ∈ st.products, 0 ≤ p.current_stock) :
    ∀ p ∈ st1.products, 0 ≤ p.current_stock := by
  obtain ⟨hact, hcases⟩ := stepTransaction_some_cases hstep
  rcases hcases with ⟨rfl, _⟩ | ⟨hge, heq⟩
  · exact h0
  · intro p hp
    have hprods : st1.products
        = (itemLoop st.products
            (sampleGo (availableIdx st.products) (numItemsDraw a.numItemsPick)
              a.samplePicks) a.quantPicks).2.2 := by
      rw [heq]; rfl
    set sel := sampleGo (availableIdx st.products) (numItemsDraw a.numItemsPick)
      a.samplePicks with hsel
    have hselsub : ∀ i ∈ sel, i ∈ availableIdx st.products :=
      sampleGo_subset _ _ _
    have hselnd : sel.Nodup := sampleGo_nodup _ _ _ (availableIdx_nodup _)
    have hselmem : ∀ i ∈ sel, i < st.products.length
        ∧ 0 < (st.products.getD i defaultProduct).current_stock := by
      intro i hi
      have := availableIdx_mem (hselsub i hi)
      exact ⟨this.1, this.2.2⟩
    obtain ⟨hlen, huntouched, hrel, _⟩ :=
      itemLoop_spec sel st.products a.quantPicks hselnd hselmem
    rw [hprods] at hp
    obtain ⟨j, hj, hpj⟩ := List.mem_iff_getElem.mp hp
    have hjlen : j < st.products.length := by
      rw [← hlen]; exact hj
    have hpgetD : (itemLoop st.products sel a.quantPicks).2.2.getD j
        defaultProduct = p := by
      rw [List.getD_eq_getElem _ _ hj]; exact hpj
    by_cases hjsel : j ∈ sel
    · obtain ⟨it, _, hrelj⟩ := forall₂_exists_of_mem_left hrel j hjsel
      obtain ⟨_, _, _, hqle, _, hstockeq⟩ := hrelj
      rw [hpgetD] at hstockeq
      have hstock0 : 0 < (st.products.getD j defaultProduct).current_stock :=
        (hselmem j hjsel).2
      have : (it.quantity : ℤ) ≤ (st.products.getD j defaultProduct).current_stock :=
        le_trans hqle (min_le_right _ _)
      omega
    · have := huntouched j hjsel
      rw [hpgetD] at this
      rw [this]
      apply h0
      rw [List.getD_eq_getElem _ _ hjlen]
      exact List.getElem_mem hjlen

/-- **C1.** For every item of every generated transaction, the drawn
quantity lies between 1 and `min(3, current_stock)` of the referenced
product at selection time (the state the attempt started from), the
referenced product's `current_stock` is decremented by exactly that
quantity, and after the whole of `_generate_simple_transactions` every
product's `current_stock` is still nonnegative (given the nonnegative
initial stocks `randint(0, 1000)` produces). -/
theorem transaction_stock_invariant :
    (∀ (st : GenState) (a : Attempt) (st1 : GenState),
      stepTransaction st a = some st1 →
      ∀ t, st1.transactions = st.transactions ++ [t] →
      ∀ it ∈ t.items, ∃ i, i < st.products.length
        ∧ it.product_id = (st.products.getD i defaultProduct).product_id
        ∧ 1 ≤ it.quantity
        ∧ (it.quantity : ℤ) ≤ min 3 (st.products.getD i defaultProduct).current_stock
        ∧ (st1.products.getD i defaultProduct).current_stock
            = (st.products.getD i defaultProduct).current_stock - it.quantity)
    ∧ (∀ (st : GenState) (atts : List Attempt) (st1 : GenState),
      generateSimpleTransactions st atts = some st1 →
      (∀ p ∈ st.products, 0 ≤ p.current_stock) →
      ∀ p ∈ st1.products, 0 ≤ p.current_stock) := by
  constructor
  · intro st a st1 hstep t ht it hit
    obtain ⟨hact, hcases⟩ := stepTransaction_some_cases hstep
    rcases hcases with ⟨rfl, _⟩ | ⟨hge, heq⟩
    · have hlen := congrArg List.length ht
      simp at hlen
    · subst heq
      simp only [applyTxn, mkTxn] at ht
      replace ht := List.append_cancel_left ht
      simp only [List.cons.injEq, and_true] at ht
      subst ht
      simp only [mkTxn] at hit
      simp only [applyTxn]
      set sel := sampleGo (availableIdx st.products) (numItemsDraw a.numItemsPick)
        a.samplePicks with hsel
      have hselsub : ∀ i ∈ sel, i ∈ availableIdx st.products :=
        sampleGo_subset _ _ _
      have hselnd : sel.Nodup := sampleGo_nodup _ _ _ (availableIdx_nodup _)
      have hselmem : ∀ i ∈ sel, i < st.products.length
          ∧ 0 < (st.products.getD i defaultProduct).current_stock := by
        intro i hi
        have := availableIdx_mem (hselsub i hi)
        exact ⟨this.1, this.2.2⟩
      obtain ⟨hlen, huntouched, hrel, _⟩ :=
        itemLoop_spec sel st.products a.quantPicks hselnd hselmem
      obtain ⟨i, hisel, hreli⟩ := forall₂_exists_of_mem_right hrel it hit
      obtain ⟨hpid, hprice, hq1, hqle, hsubt, hstockeq⟩ := hreli
      exact ⟨i, (hselmem i hisel).1, hpid, hq1, hqle, hstockeq⟩
  · intro st atts
    induction atts generalizing st with
    | nil =>
      intro st1 hgen h0
      have : st = st1 := by
        simpa [generateSimpleTransactions] using hgen
      rw [← this]
      exact h0
    | cons a rest ih =>
      intro st1 hgen h0
      rcases hstep : stepTransaction st a with _ | st2
      · rw [generateSimpleTransactions, hstep] at hgen
        exact absurd hgen (by simp)
      · rw [generateSimpleTransactions, hstep] at hgen
        exact ih st2 st1 hgen (stepTransaction_stock_nonneg hstep h0)

/-- Witness for C1 at the concrete one-product, one-user state. -/
theorem transaction_stock_invariant_witness :
    (∀ it ∈ exTxn.items, ∃ i, i < exState.products.length
      ∧ it.product_id = (exState.products.getD i defaultProduct).product_id
      ∧ 1 ≤ it.quantity
      ∧ (it.quantity : ℤ) ≤ min 3 (exState.products.getD i defaultProduct).current_stock
      ∧ (exState1.products.getD i defaultProduct).current_stock
          = (exState.products.getD i defaultProduct).current_stock - it.quantity)
    ∧ (∀ p ∈ exState1.products, 0 ≤ p.current_stock) :=
  ⟨transaction_stock_invariant.1 exState exAttempt exState1 ex_step_eval exTxn rfl,
   transaction_stock_invariant.2 exState [exAttempt] exState1
     (by rw [generateSimpleTransactions, ex_step_eval]; rfl)
     (by
       intro p hp
       simp only [exState, List.mem_singleton] at hp
       subst hp
       norm_num [exProduct])⟩

theorem isCentValue_intCast (n : ℤ) : isCentValue (n : ℚ) := by
  unfold isCentValue
  have : (100 : ℚ) * n = ((100 * n : ℤ) : ℚ) := by push_cast; ring
  rw [this, Rat.den_intCast]

theorem isCentValue_sum :
    ∀ (l : List ℚ), (∀ x ∈ l, isCentValue x) → isCentValue l.sum := by
  intro l
  induction l with
  | nil => intro _; simpa using isCentValue_zero
  | cons x xs ih =>
    intro h
    rw [List.sum_cons]
    exact isCentValue_add (h x (by simp)) (ih fun y hy => h y (by simp [hy]))

/-- **C3.** For every generated transaction: the discount is 0 or
`round(subtotal * rate, 2)` for a rate in {0.05, 0.10, 0.15, 0.20} (the
25% chance is the Boolean draw `discountHappens`); the tax is
`round(subtotal * 0.08, 2)`; the shipping is 0 when the subtotal exceeds
50 and 9.99 otherwise; the stored total is
`round(subtotal - discount + tax + shipping, 2)` over the already-rounded
terms; and the stored subtotal equals the sum of the items' stored
subtotals. The hypothesis that every product price is an exact
two-decimal value holds for the generator, which rounds every price to
2 decimals when products are created. -/
theorem transaction_pricing_formulas :
    ∀ (st : GenState) (a : Attempt) (st1 : GenState),
      stepTransaction st a = some st1 →
      (∀ p ∈ st.products, isCentValue p.base_price) →
      ∀ t, st1.transactions = st.transactions ++ [t] →
        t.subtotal = (t.items.map (fun it => it.subtotal)).sum
        ∧ (t.discount = 0
            ∨ ∃ r ∈ discountRates, t.discount = round2 (t.subtotal * r))
        ∧ t.tax = round2 (t.subtotal * (8/100))
        ∧ t.shipping = (if 50 < t.subtotal then (0 : ℚ) else 999/100)
        ∧ t.total = round2 (t.subtotal - t.discount + t.tax + t.shipping) := by
  intro st a st1 hstep hcent t ht
  obtain ⟨hact, hcases⟩ := stepTransaction_some_cases hstep
  rcases hcases with ⟨rfl, _⟩ | ⟨hge, heq⟩
  · have hlen := congrArg List.length ht
    simp at hlen
  · subst heq
    simp only [applyTxn] at ht
    replace ht := List.append_cancel_left ht
    simp only [List.cons.injEq, and_true] at ht
    subst ht
    simp only [mkTxn]
    set sel := sampleGo (availableIdx st.products) (numItemsDraw a.numItemsPick)
      a.samplePicks with hsel
    set items := (itemLoop st.products sel a.quantPicks).1 with hitems
    set sub := (itemLoop st.products sel a.quantPicks).2.1 with hsubdef
    have hselsub : ∀ i ∈ sel, i ∈ availableIdx st.products :=
      sampleGo_subset _ _ _
    have hselnd : sel.Nodup := sampleGo_nodup _ _ _ (availableIdx_nodup _)
    have hselmem : ∀ i ∈ sel, i < st.products.length
        ∧ 0 < (st.products.getD i defaultProduct).current_stock := by
      intro i hi
      have := availableIdx_mem (hselsub i hi)
      exact ⟨this.1, this.2.2⟩
    obtain ⟨_, _, hrel, hsubeq⟩ :=
      itemLoop_spec sel st.products a.quantPicks hselnd hselmem
    rw [← hsubdef, ← hitems] at hsubeq
    rw [← hitems] at hrel
    have hterm : ∀ it ∈ items, isCentValue ((it.quantity : ℚ) * it.unit_price) := by
      intro it hit
      obtain ⟨i, hisel, hreli⟩ := forall₂_exists_of_mem_right hrel it hit
      have hprice := hreli.2.1
      have hmem : st.products.getD i defaultProduct ∈ st.products := by
        have hilen := (hselmem i hisel).1
        rw [List.getD_eq_getElem _ _ hilen]
        exact List.getElem_mem hilen
      rw [hprice]
      exact isCentValue_natMul _ (hcent _ hmem)
    have hsubcent : isCentValue sub := by
      rw [hsubeq]
      apply isCentValue_sum
      intro x hx
      obtain ⟨it, hit, rfl⟩ := List.mem_map.mp hx
      exact hterm it hit
    have hsub : round2 sub = sub := round2_eq_self hsubcent
    have hstored : (items.map (fun it => it.subtotal)).sum = sub := by
      rw [hsubeq]
      congr 1
      apply List.map_congr_left
      intro it hit
      obtain ⟨i, _, hreli⟩ := forall₂_exists_of_mem_right hrel it hit
      rw [hreli.2.2.2.2.1]
      exact round2_eq_self (hterm it hit)
    refine ⟨by rw [hsub]; exact hstored.symm, ?_, by simp only [hsub]; rfl,
      by simp only [hsub]; rfl, by simp only [hsub]; rfl⟩
    unfold txnDiscount
    by_cases hd : a.discountHappens
    · right
      refine ⟨discountRates.getD (a.ratePick % 4) (5/100), ?_, ?_⟩
      · have hlt : a.ratePick % 4 < 4 := Nat.mod_lt _ (by omega)
        have hlt2 : a.ratePick % 4 < discountRates.length := by
          simpa [discountRates] using hlt
        rw [List.getD_eq_getElem _ _ hlt2]
        exact List.getElem_mem hlt2
      · rw [if_pos hd, hsub]
    · left
      rw [if_neg hd]

/-- Witness for C3 at the concrete one-product, one-user state. -/
theorem transaction_pricing_formulas_witness :
    exTxn.subtotal = (exTxn.items.map (fun it => it.subtotal)).sum
    ∧ (exTxn.discount = 0
        ∨ ∃ r ∈ discountRates, exTxn.discount = round2 (exTxn.subtotal * r))
    ∧ exTxn.tax = round2 (exTxn.subtotal * (8/100))
    ∧ exTxn.shipping = (if 50 < exTxn.subtotal then (0 : ℚ) else 999/100)
    ∧ exTxn.total = round2 (exTxn.subtotal - exTxn.discount + exTxn.tax
        + exTxn.shipping) :=
  transaction_pricing_formulas exState exAttempt exState1 ex_step_eval
    (by
      intro p hp
      simp only [exState, List.mem_singleton] at hp
      subst hp
      show isCentValue (10 : ℚ)
      simpa using isCentValue_intCast 10)
    exTxn rfl

theorem set_getElem_self {α : Type} (l : List α) (i : ℕ) (h : i < l.length) :
    l.set i l[i] = l := by
  apply List.ext_getElem (by rw [List.length_set])
  intro j h1 h2
  rw [List.getElem_set]
  split
  · rename_i hji
    subst hji
    rfl
  · rfl

theorem user_totals_update
    (users : List User) (txns : List Transaction) (txn : Transaction)
    (uIdx : ℕ) (huIdx : uIdx < users.length)
    (htid : txn.user_id = (users.getD uIdx defaultUser).user_id)
    (hnd : (users.map (fun u => u.user_id)).Nodup)
    (hinv : ∀ u ∈ users,
      u.lifetime_value = ((txns.filter
          (fun t => t.user_id == u.user_id)).map (fun t => t.total)).sum
      ∧ u.total_orders = (txns.filter
          (fun t => t.user_id == u.user_id)).length) :
    ((users.set uIdx
        { users.getD uIdx defaultUser with
          total_orders := (users.getD uIdx defaultUser).total_orders + 1
          lifetime_value := (users.getD uIdx defaultUser).lifetime_value
            + txn.total }).map (fun u => u.user_id)).Nodup
    ∧ ∀ u ∈ users.set uIdx
        { users.getD uIdx defaultUser with
          total_orders := (users.getD uIdx defaultUser).total_orders + 1
          lifetime_value := (users.getD uIdx defaultUser).lifetime_value
            + txn.total },
      u.lifetime_value = (((txns ++ [txn]).filter
          (fun t => t.user_id == u.user_id)).map (fun t => t.total)).sum
      ∧ u.total_orders = ((txns ++ [txn]).filter
          (fun t => t.user_id == u.user_id)).length := by
  set user := users.getD uIdx defaultUser with huser
  set newU : User :=
    { user with total_orders := user.total_orders + 1
                lifetime_value := user.lifetime_value + txn.total } with hnewU
  have hid : newU.user_id = user.user_id := rfl
  have hmap : (users.set uIdx newU).map (fun u => u.user_id)
      = users.map (fun u => u.user_id) := by
    rw [List.map_set]
    have hmaplen : uIdx < (users.map (fun u => u.user_id)).length := by
      rw [List.length_map]; exact huIdx
    have hval : newU.user_id = (users.map (fun u => u.user_id))[uIdx] := by
      rw [List.getElem_map]
      show newU.user_id = users[uIdx].user_id
      rw [hid, huser, List.getD_eq_getElem _ _ huIdx]
    rw [hval, set_getElem_self]
  constructor
  · rw [hmap]; exact hnd
  · intro u hu
    obtain ⟨j, hj, hju⟩ := List.mem_iff_getElem.mp hu
    have hjlen : j < users.length := by
      rw [List.length_set] at hj
      exact hj
    have huser_mem : user ∈ users := by
      rw [huser, List.getD_eq_getElem _ _ huIdx]
      exact List.getElem_mem huIdx
    by_cases hje : j = uIdx
    · subst hje
      have hgu : u = newU := by
        rw [← hju, List.getElem_set_self]
      subst hgu
      have hfil : (txns ++ [txn]).filter (fun t => t.user_id == newU.user_id)
          = txns.filter (fun t => t.user_id == newU.user_id) ++ [txn] := by
        rw [List.filter_append]
        congr 1
        simp only [List.filter, hid]
        rw [show (txn.user_id == user.user_id) = true by
          rw [beq_iff_eq]; exact htid]
      rw [hfil]
      have huinv := hinv user huser_mem
      have hsame : txns.filter (fun t => t.user_id == newU.user_id)
          = txns.filter (fun t => t.user_id == user.user_id) := by
        rw [hid]
      rw [hsame]
      constructor
      · rw [List.map_append, List.sum_append]
        show user.lifetime_value + txn.total = _
        rw [huinv.1]
        simp
      · rw [List.length_append]
        show user.total_orders + 1 = _
        rw [huinv.2]
        rfl
    · have hgu : u = users[j] := by
        rw [← hju, List.getElem_set_ne (fun h => hje h.symm)]
      have humem : u ∈ users := by
        rw [hgu]; exact List.getElem_mem hjlen
      have hne : txn.user_id ≠ u.user_id := by
        intro hcontra
        have h1 : u.user_id = users[j].user_id := by rw [hgu]
        have h2 : user.user_id = users[uIdx].user_id := by
          rw [huser, List.getD_eq_getElem _ _ huIdx]
        have h3 : users[j].user_id = users[uIdx].user_id := by
          rw [← h1, ← hcontra, htid, h2]
        have hmaplen1 : j < (users.map (fun u => u.user_id)).length := by
          rw [List.length_map]; exact hjlen
        have hmaplen2 : uIdx < (users.map (fun u => u.user_id)).length := by
          rw [List.length_map]; exact huIdx
        have h4 : (users.map (fun u => u.user_id))[j]
            = (users.map (fun u => u.user_id))[uIdx] := by
          rw [List.getElem_map, List.getElem_map]
          exact h3
        exact hje (hnd.getElem_inj_iff.mp h4)
      have hfil : (txns ++ [txn]).filter (fun t => t.user_id == u.user_id)
          = txns.filter (fun t => t.user_id == u.user_id) := by
        rw [List.filter_append]
        have h0 : List.filter (fun t => t.user_id == u.user_id) [txn] = [] := by
          simp only [List.filter]
          rw [show (txn.user_id == u.user_id) = false by
            simp only [beq_eq_false_iff_ne, ne_eq]
            exact hne]
        rw [h0, List.append_nil]
      rw [hfil]
      exact hinv u humem

theorem stepTransaction_user_totals {st st1 : GenState} {a : Attempt}
    (hstep : stepTransaction st a = some st1)
    (hnd : (st.users.map (fun u => u.user_id)).Nodup)
    (hinv : ∀ u ∈ st.users,
      u.lifetime_value = ((st.transactions.filter
          (fun t => t.user_id == u.user_id)).map (fun t => t.total)).sum
      ∧ u.total_orders = (st.transactions.filter
          (fun t => t.user_id == u.user_id)).length) :
    (st1.users.map (fun u => u.user_id)).Nodup
    ∧ ∀ u ∈ st1.users,
      u.lifetime_value = ((st1.transactions.filter
          (fun t => t.user_id == u.user_id)).map (fun t => t.total)).sum
      ∧ u.total_orders = (st1.transactions.filter
          (fun t => t.user_id == u.user_id)).length := by
  obtain ⟨hact, hcases⟩ := stepTransaction_some_cases hstep
  rcases hcases with ⟨rfl, _⟩ | ⟨hge, heq⟩
  · exact ⟨hnd, hinv⟩
  · subst heq
    simp only [applyTxn]
    exact user_totals_update st.users st.transactions _ _
      (activeUserIdx_mem (activeUserIdx_getD_mem hact a.userPick)).1
      rfl hnd hinv

theorem gen_user_totals :
    ∀ (atts : List Attempt) (st st1 : GenState),
      generateSimpleTransactions st atts = some st1 →
      (st.users.map (fun u => u.user_id)).Nodup →
      (∀ u ∈ st.users,
        u.lifetime_value = ((st.transactions.filter
            (fun t => t.user_id == u.user_id)).map (fun t => t.total)).sum
        ∧ u.total_orders = (st.transactions.filter
            (fun t => t.user_id == u.user_id)).length) →
      (st1.users.map (fun u => u.user_id)).Nodup
      ∧ ∀ u ∈ st1.users,
        u.lifetime_value = ((st1.transactions.filter
            (fun t => t.user_id == u.user_id)).map (fun t => t.total)).sum
        ∧ u.total_orders = (st1.transactions.filter
            (fun t => t.user_id == u.user_id)).length := by
  intro atts
  induction atts with
  | nil =>
    intro st st1 hgen hnd hinv
    have : st = st1 := by
      simpa [generateSimpleTransactions] using hgen
    rw [← this]
    exact ⟨hnd, hinv⟩
  | cons a rest ih =>
    intro st st1 hgen hnd hinv
    rcases hstep : stepTransaction st a with _ | st2
    · rw [generateSimpleTransactions, hstep] at hgen
      exact absurd hgen (by simp)
    · rw [generateSimpleTransactions, hstep] at hgen
      obtain ⟨hnd2, hinv2⟩ := stepTransaction_user_totals hstep hnd hinv
      exact ih st2 st1 hgen hnd2 hinv2

/-- **C4.** After transaction generation completes, every user's
`lifetime_value` equals the sum of `total` over the generated
transactions whose `user_id` matches that user, and `total_orders`
equals the count of those transactions; both start at 0 and are updated
for every transaction regardless of its status (the concrete witness
below runs an attempt whose drawn status is `"cancelled"`). -/
theorem user_lifetime_value_totals :
    ∀ (st : GenState) (atts : List Attempt) (st1 : GenState),
      generateSimpleTransactions st atts = some st1 →
      (st.users.map (fun u => u.user_id)).Nodup →
      st.transactions = [] →
      (∀ u ∈ st.users, u.total_orders = 0 ∧ u.lifetime_value = 0) →
      ∀ u ∈ st1.users,
        u.lifetime_value = ((st1.transactions.filter
            (fun t => t.user_id == u.user_id)).map (fun t => t.total)).sum
        ∧ u.total_orders = (st1.transactions.filter
            (fun t => t.user_id == u.user_id)).length := by
  intro st atts st1 hgen hnd htr hzero
  have hinv0 : ∀ u ∈ st.users,
      u.lifetime_value = ((st.transactions.filter
          (fun t => t.user_id == u.user_id)).map (fun t => t.total)).sum
      ∧ u.total_orders = (st.transactions.filter
          (fun t => t.user_id == u.user_id)).length := by
    intro u hu
    rw [htr]
    simpa using ⟨(hzero u hu).2, (hzero u hu).1⟩
  exact (gen_user_totals atts st st1 hgen hnd hinv0).2

/-- Witness for C4: one attempt with a drawn status of `"cancelled"`
still increments the user's totals. -/
theorem user_lifetime_value_totals_witness :
    (∀ u ∈ exState1.users,
      u.lifetime_value = ((exState1.transactions.filter
          (fun t => t.user_id == u.user_id)).map (fun t => t.total)).sum
      ∧ u.total_orders = (exState1.transactions.filter
          (fun t => t.user_id == u.user_id)).length)
    ∧ exTxn.status = "cancelled" :=
  ⟨user_lifetime_value_totals exState [exAttempt] exState1
    (by rw [generateSimpleTransactions, ex_step_eval]; rfl)
    (by simp [exState, exUser])
    rfl
    (by
      intro u hu
      simp only [exState, List.mem_singleton] at hu
      subst hu
      exact ⟨rfl, rfl⟩),
   rfl⟩

theorem activeUserIdx_ne_nil_iff (users : List User) :
    activeUserIdx users ≠ [] ↔ ∃ u ∈ users, u.account_status = "active" := by
  unfold activeUserIdx
  rw [ne_eq, List.filter_eq_nil_iff]
  push_neg
  constructor
  · rintro ⟨j, hj, hpred⟩
    have hjlen := List.mem_range.mp hj
    simp only [decide_eq_true_eq] at hpred
    refine ⟨users.getD j defaultUser, ?_, hpred⟩
    rw [List.getD_eq_getElem _ _ hjlen]
    exact List.getElem_mem hjlen
  · rintro ⟨u, hu, hstat⟩
    obtain ⟨j, hjlen, hju⟩ := List.mem_iff_getElem.mp hu
    refine ⟨j, List.mem_range.mpr hjlen, ?_⟩
    simp only [decide_eq_true_eq]
    rw [List.getD_eq_getElem _ _ hjlen, hju]
    exact hstat

theorem stepTransaction_preserves_active {st st1 : GenState} {a : Attempt}
    (hstep : stepTransaction st a = some st1)
    (hex : ∃ u ∈ st.users, u.account_status = "active") :
    ∃ u ∈ st1.users, u.account_status = "active" := by
  obtain ⟨hact, hcases⟩ := stepTransaction_some_cases hstep
  rcases hcases with ⟨rfl, _⟩ | ⟨hge, heq⟩
  · exact hex
  · subst heq
    simp only [applyTxn]
    have hmem := activeUserIdx_getD_mem hact a.userPick
    have hlt := (activeUserIdx_mem hmem).1
    have hstat := (activeUserIdx_mem hmem).2
    refine ⟨_, List.mem_iff_getElem.mpr
      ⟨(activeUserIdx st.users).getD (a.userPick % (activeUserIdx st.users).length) 0,
       by rw [List.length_set]; exact hlt,
       List.getElem_set_self (by rw [List.length_set]; exact hlt)⟩, hstat⟩

theorem stepTransaction_txn_length {st st1 : GenState} {a : Attempt}
    (hstep : stepTransaction st a = some st1) :
    st1.transactions.length ≤ st.transactions.length + 1 := by
  obtain ⟨_, hcases⟩ := stepTransaction_some_cases hstep
  rcases hcases with ⟨rfl, _⟩ | ⟨_, heq⟩
  · omega
  · subst heq
    simp [applyTxn]

theorem gen_completes :
    ∀ (atts : List Attempt) (st : GenState),
      (∃ u ∈ st.users, u.account_status = "active") →
      ∃ st1, generateSimpleTransactions st atts = some st1
        ∧ st1.transactions.length ≤ st.transactions.length + atts.length := by
  intro atts
  induction atts with
  | nil =>
    intro st _
    exact ⟨st, rfl, by omega⟩
  | cons a rest ih =>
    intro st hex
    rcases hstep : stepTransaction st a with _ | st2
    · rw [stepTransaction_eq_none_iff] at hstep
      exact absurd hstep ((activeUserIdx_ne_nil_iff st.users).mpr hex)
    · obtain ⟨st1, hgen, hlen⟩ := ih st2 (stepTransaction_preserves_active hstep hex)
      refine ⟨st1, ?_, ?_⟩
      · rw [generateSimpleTransactions, hstep]
        exact hgen
      · have := stepTransaction_txn_length hstep
        simp only [List.length_cons]
        omega

/-- **C5 counterexample.** A configuration with no users (so no active
users) makes the first attempt raise `IndexError` inside
`random.choice([u for u in self.users if ...])` (modelled `none`):
`_generate_simple_transactions` does not complete without error for every
configuration. -/
theorem transaction_generation_error_counterexample :
    generateSimpleTransactions
      { products := [exProduct], users := [], transactions := [] }
      [exAttempt] = none := rfl

/-- **C5 (amended).** An attempt that finds fewer available products than
the drawn item count is skipped without error and without mutating any
state (the step returns the state unchanged), and, provided at least one
active user exists, `_generate_simple_transactions` completes without
error with at most `NUM_TRANSACTIONS` (the attempt count) transactions;
with no active users an attempt raises `IndexError` instead (see the
counterexample). -/
theorem transaction_skip_and_termination :
    (∀ (st : GenState) (a : Attempt),
      activeUserIdx st.users ≠ [] →
      (availableIdx st.products).length < numItemsDraw a.numItemsPick →
      stepTransaction st a = some st)
    ∧ (∀ (st : GenState) (atts : List Attempt),
      (∃ u ∈ st.users, u.account_status = "active") →
      ∃ st1, generateSimpleTransactions st atts = some st1
        ∧ st1.transactions.length ≤ st.transactions.length + atts.length) :=
  ⟨fun _ _ h1 h2 => stepTransaction_skip h1 h2, fun st atts hex => gen_completes atts st hex⟩

/-- Witness for C5: a two-item draw against a one-product catalogue is
skipped leaving the state unchanged, and the one-attempt run completes. -/
theorem transaction_skip_and_termination_witness :
    stepTransaction exState { exAttempt with numItemsPick := 1 } = some exState
    ∧ ∃ st1, generateSimpleTransactions exState [exAttempt] = some st1
        ∧ st1.transactions.length ≤ exState.transactions.length + 1 :=
  ⟨transaction_skip_and_termination.1 exState { exAttempt with numItemsPick := 1 }
      (by decide) (by decide),
   transaction_skip_and_termination.2 exState [exAttempt]
      ⟨exUser, by simp [exState], rfl⟩⟩

theorem priceHistoryGo_chain :
    ∀ (cs : List PriceChange) (p : ℚ) (d : ℤ) (e : PriceEntry), e.date = d →
      List.Chain' (fun e1 e2 : PriceEntry =>
        e1.date + 7 ≤ e2.date ∧ e2.date ≤ e1.date + 45)
        (e :: priceHistoryGo p d cs) := by
  intro cs
  induction cs with
  | nil =>
    intro p d e _
    simp [priceHistoryGo]
  | cons c rest ih =>
    intro p d e he
    simp only [priceHistoryGo]
    refine List.chain'_cons.mpr ⟨?_, ?_⟩
    · have hlt : c.daysRand % 39 < 39 := Nat.mod_lt _ (by omega)
      constructor
      · show e.date + 7 ≤ d + ((7 + c.daysRand % 39 : ℕ) : ℤ)
        rw [he]
        push_cast
        omega
      · show d + ((7 + c.daysRand % 39 : ℕ) : ℤ) ≤ e.date + 45
        rw [he]
        push_cast
        omega
    · exact ih _ _ _ rfl

/-- **C8.** Every generated `price_history` is non-empty, its first entry
is the initial listing (reason `"initial_listing"`, the base price and
the start date), and consecutive entries are dated 7 to 45 days apart, so
the dates are non-decreasing. -/
theorem price_history_first_entry_and_ordering :
    ∀ (basePrice : ℚ) (startDate : ℤ) (changes : List PriceChange),
      generatePriceHistory basePrice startDate changes ≠ []
      ∧ (generatePriceHistory basePrice startDate changes).head? =
          some ⟨basePrice, startDate, "initial_listing"⟩
      ∧ List.Chain' (fun e1 e2 => e1.date + 7 ≤ e2.date ∧ e2.date ≤ e1.date + 45)
          (generatePriceHistory basePrice startDate changes)
      ∧ List.Chain' (fun e1 e2 => e1.date ≤ e2.date)
          (generatePriceHistory basePrice startDate changes) := by
  intro bp sd cs
  have hchain := priceHistoryGo_chain cs bp sd ⟨bp, sd, "initial_listing"⟩ rfl
  exact ⟨by simp [generatePriceHistory], rfl, hchain,
    hchain.imp (fun a b h => by omega)⟩

/-- **C2 counterexample.** With a single inactive category the drawn
sample size is 1 but the active population is empty, and `random.sample`
raises `ValueError` (modelled `none`): generation fails instead of
clamping the sample size. -/
theorem preferred_categories_counterexample :
    userPreferredCategories
      [{ category_id := "cat_000", name := "Electronics", is_active := false }]
      0 (fun _ => 0) = none := rfl

/-- **C2 (amended).** `preferred_categories` is a `random.sample` of
`randint(1, 5)` ids drawn only from active categories; when at least that
many active categories exist the draw succeeds with exactly that many
ids, all from active categories, but when fewer active categories exist
than the requested sample size `random.sample` raises `ValueError`
(modelled `none`) — the generator does not clamp the sample size. -/
theorem preferred_categories_amended :
    ∀ (categories : List Category) (kRand : ℕ) (rs : ℕ → ℕ),
      (1 + kRand % 5 ≤
          ((categories.filter (fun c => c.is_active)).map
            (fun c => c.category_id)).length →
        ∃ l, userPreferredCategories categories kRand rs = some l
          ∧ l.length = 1 + kRand % 5
          ∧ 1 ≤ l.length ∧ l.length ≤ 5
          ∧ ∀ cid ∈ l, cid ∈ (categories.filter (fun c => c.is_active)).map
              (fun c => c.category_id))
      ∧ (((categories.filter (fun c => c.is_active)).map
            (fun c => c.category_id)).length < 1 + kRand % 5 →
        userPreferredCategories categories kRand rs = none) := by
  intro cats kRand rs
  constructor
  · intro hk
    refine ⟨sampleGo ((cats.filter (fun c => c.is_active)).map
        (fun c => c.category_id)) (1 + kRand % 5) rs, ?_, ?_, ?_, ?_, ?_⟩
    · show pySample _ _ _ = _
      unfold pySample
      rw [if_neg (by omega)]
    · exact sampleGo_length _ _ _ hk
    · rw [sampleGo_length _ _ _ hk]
      omega
    · rw [sampleGo_length _ _ _ hk]
      have := Nat.mod_lt kRand (show 0 < 5 by omega)
      omega
    · exact sampleGo_subset _ _ _
  · intro hlt
    exact (pySample_eq_none_iff ((cats.filter (fun c => c.is_active)).map
      (fun c => c.category_id)) (1 + kRand % 5) rs).mpr hlt

/-- Witness for the amended C2 at a concrete two-category list. -/
theorem preferred_categories_amended_witness :
    ∃ l, userPreferredCategories
        [{ category_id := "cat_000", name := "Electronics", is_active := true },
         { category_id := "cat_001", name := "Clothing", is_active := true }]
        0 (fun _ => 0) = some l
      ∧ l.length = 1 + 0 % 5
      ∧ 1 ≤ l.length ∧ l.length ≤ 5
      ∧ ∀ cid ∈ l, cid ∈ (([⟨"cat_000", "Electronics", true⟩,
          ⟨"cat_001", "Clothing", true⟩] : List Category).filter
            (fun c => c.is_active)).map (fun c => c.category_id) :=
  (preferred_categories_amended
    [{ category_id := "cat_000", name := "Electronics", is_active := true },
     { category_id := "cat_001", name := "Clothing", is_active := true }]
    0 (fun _ => 0)).1 (by decide)

/-- **C9.** Every generated session's viewed-products list is a sample of
at most 5 product ids drawn only from the first `min(100, NUM_PRODUCTS)`
generated products: whenever the draw succeeds, every id in it belongs to
the 100-product prefix. -/
theorem session_viewed_products_prefix :
    ∀ (products : List Product) (kRand : ℕ) (rs : ℕ → ℕ) (vp : List String),
      sessionProductsViewed products kRand rs = some vp →
      vp.length ≤ 5
      ∧ ∀ pid ∈ vp, pid ∈ (products.take 100).map (fun p => p.product_id) := by
  intro prods kRand rs vp h
  obtain ⟨hlen, hmem, _⟩ := pySample_spec h
  refine ⟨?_, hmem⟩
  rw [hlen]
  have := Nat.mod_lt kRand (show 0 < 6 by omega)
  omega

/-- Witness for C9 at a concrete one-product catalogue. -/
theorem session_viewed_products_prefix_witness :
    (["prod_00000"] : List String).length ≤ 5
    ∧ ∀ pid ∈ (["prod_00000"] : List String),
        pid ∈ ([exProduct].take 100).map (fun p => p.product_id) :=
  session_viewed_products_prefix [exProduct] 1 (fun _ => 0) ["prod_00000"] rfl

/-- **C7 counterexample.** With 20 transactions and 50 sessions the
persisted `conversion_rate` is `round(20/50 * 100, 2) = 40.0`, not
`round(20/50, 2) = 0.4`: the persisted field is a percentage, so the
claim's formula (the plain ratio rounded to 2 decimals) is wrong. -/
theorem conversion_rate_counterexample :
    persistedConversionRate
        (List.replicate 20 ⟨"", "", "", [], 0, 0, 0, 0, 0, "", ""⟩)
        (List.replicate 50 ⟨"", ""⟩)
      ≠ round2 ((20 : ℚ) / 50) := by
  unfold persistedConversionRate conversionRate
  rw [if_neg (by simp [List.isEmpty_iff])]
  norm_num [List.length_replicate, round2, pyRound]

/-- **C7 (amended).** The `conversion_rate` field persisted in
`dataset_summary.json` equals `round(100 * transactions / sessions, 2)`,
a percentage, and equals 0 when there are no sessions (the guard avoids
division by zero). -/
theorem conversion_rate_amended :
    ∀ (txns : List Transaction) (sessions : List Session),
      (sessions = [] → persistedConversionRate txns sessions = 0)
      ∧ (sessions ≠ [] → persistedConversionRate txns sessions
          = round2 (100 * (txns.length : ℚ) / (sessions.length : ℚ))) := by
  intro txns sessions
  constructor
  · rintro rfl
    unfold persistedConversionRate conversionRate
    norm_num [round2, pyRound]
  · intro hne
    unfold persistedConversionRate conversionRate
    rw [if_neg (by simpa [List.isEmpty_iff] using hne)]
    congr 1
    ring

/-- Witness for the amended C7: no sessions gives 0, one session gives
the percentage formula. -/
theorem conversion_rate_amended_witness :
    persistedConversionRate [] [] = 0
    ∧ persistedConversionRate [] [⟨"sess_0", "user_000000"⟩]
        = round2 (100 * ((([] : List Transaction).length : ℕ) : ℚ)
            / ((([⟨"sess_0", "user_000000"⟩] : List Session).length : ℕ) : ℚ)) :=
  ⟨(conversion_rate_amended [] []).1 rfl,
   (conversion_rate_amended [] [⟨"sess_0", "user_000000"⟩]).2 (by simp)⟩

/-- **C10.** The business-metrics computation is only defined when at
least one product exists: `average_product_rating` divides the rating sum
by the product count with no emptiness guard (`none` models the
`ZeroDivisionError` on an empty catalogue), unlike
`average_transaction_value` and the conversion rate, which default to 0
for empty transactions/sessions; with a non-empty product list the
division is safe and the metrics are produced. -/
theorem summary_rating_requires_products :
    ∀ (products : List Product) (txns : List Transaction)
      (sessions : List Session),
      ((businessMetrics products txns sessions).isSome ↔ products ≠ [])
      ∧ averageTransactionValue [] = 0
      ∧ conversionRate txns [] = 0
      ∧ (products ≠ [] → ∃ m, businessMetrics products txns sessions = some m
          ∧ m.average_product_rating
            = round2 ((products.map (fun p => p.rating)).sum
                / (products.length : ℚ))) := by
  intro prods txns sessions
  refine ⟨?_, rfl, rfl, ?_⟩
  · rcases prods with _ | ⟨p, ps⟩
    · simp [businessMetrics]
    · simp [businessMetrics]
  · intro hne
    rcases prods with _ | ⟨p, ps⟩
    · exact absurd rfl hne
    · exact ⟨_, rfl, rfl⟩

/-- Witness for C10 at a concrete one-product catalogue. -/
theorem summary_rating_requires_products_witness :
    ∃ m, businessMetrics [exProduct] [] [] = some m
      ∧ m.average_product_rating
        = round2 (([exProduct].map (fun p => p.rating)).sum
            / (([exProduct] : List Product).length : ℚ)) :=
  (summary_rating_requires_products [exProduct] [] []).2.2.2 (by simp)

/-- **C6 counterexample.** Two runs with the same seed 42 and the same
configuration, but with the uuid4 entropy and the wall clock any two
independent runs actually observe, write different bytes: the first
transaction id (`f"txn_{uuid.uuid4().hex[:12]}"`, line 487) differs in
`transactions.json` and the `generation_metadata.timestamp`
(`datetime.datetime.now().isoformat()`, line 365) differs in
`dataset_summary.json`, so the output files are not byte-identical. -/
theorem run_determinism_counterexample :
    runSensitiveBytes 42 ⟨"aaaaaaaaaaaaaaaa", "2025-01-01T00:00:00"⟩
      ≠ runSensitiveBytes 42 ⟨"bbbbbbbbbbbbbbbb", "2025-01-01T00:00:01"⟩ := by
  decide

/-- **C6 (amended).** The seeded streams make the drawn values
reproducible, but `transaction_id` and the summary timestamp come from
uuid4 entropy and the wall clock, which the seeds do not control: those
bytes are independent of the seed (first conjunct), and every generated
transaction's id is exactly `"txn_" ++` the first 12 hex digits of the
attempt's uuid4 entropy (second conjunct). Byte-identical outputs
therefore require fixing the uuid entropy and the clock in addition to
the seeds. -/
theorem run_determinism_amended :
    (∀ (seed1 seed2 : ℕ) (inp : NonSeededInputs),
      runSensitiveBytes seed1 inp = runSensitiveBytes seed2 inp)
    ∧ (∀ (st : GenState) (a : Attempt) (st1 : GenState),
      stepTransaction st a = some st1 →
      ∀ t, st1.transactions = st.transactions ++ [t] →
        t.transaction_id = mkTransactionId a.uuidHex) := by
  constructor
  · intro s1 s2 inp
    rfl
  · intro st a st1 hstep t ht
    obtain ⟨hact, hcases⟩ := stepTransaction_some_cases hstep
    rcases hcases with ⟨rfl, _⟩ | ⟨hge, heq⟩
    · have hlen := congrArg List.length ht
      simp at hlen
    · subst heq
      simp only [applyTxn] at ht
      replace ht := List.append_cancel_left ht
      simp only [List.cons.injEq, and_true] at ht
      subst ht
      rfl

/-- Witness for the amended C6. -/
theorem run_determinism_amended_witness :
    runSensitiveBytes 0 ⟨"x", "y"⟩ = runSensitiveBytes 42 ⟨"x", "y"⟩
    ∧ exTxn.transaction_id = mkTransactionId exAttempt.uuidHex :=
  ⟨run_determinism_amended.1 0 42 ⟨"x", "y"⟩,
   run_determinism_amended.2 exState exAttempt exState1 ex_step_eval exTxn rfl⟩
